import Mathlib

/-!
Verification of the frame-sampling and frame-lifecycle core of the
`folio_magic` repository (a video-to-stills curation app).

The development shallowly embeds the processing logic of
`src/unnamed/part_000` (the full variant of the app, the one that carries
the step-count ceiling, the per-second sampling rate and the two-sided
progress formula; `src/index.tsx` is a reduced near-duplicate).

JavaScript numbers are modelled as `JSNum` (a rational or one of the three
non-finite values); all arithmetic that the code performs on sanitized
values happens over `ℚ`.  The asynchronous seek/encode pipeline is reduced
to its data effect: per step, the decoder either yields an encoded blob or
it does not, which we model by an oracle `blobOk : ℕ → Bool` indexed by the
step number (a `null` blob is the only way the code skips a timestamp; a
seek timeout or seek error still falls through to the draw-and-encode code).
-/

namespace FolioMagic

/-- Model of a JavaScript number: a finite rational or one of the three
special values `Infinity`, `-Infinity`, `NaN`. -/
inductive JSNum where
  | fin (q : ℚ)
  | posInf
  | negInf
  | nan
deriving DecidableEq, Repr

/-- JavaScript `Number.isFinite`. -/
def JSNum.isFinite : JSNum → Bool
  | .fin _ => true
  | _ => false

/-- JavaScript comparison `x <= 0` (false on `NaN`, true on `-Infinity`). -/
def JSNum.jsLeZero : JSNum → Bool
  | .fin q => decide (q ≤ 0)
  | .negInf => true
  | _ => false

/-- JavaScript comparison `x > 0` (false on `NaN`, true on `Infinity`). -/
def JSNum.gtZero : JSNum → Bool
  | .fin q => decide (0 < q)
  | .posInf => true
  | _ => false

/-- JavaScript truthiness of a number: falsy exactly on `0`, `-0` and `NaN`. -/
def JSNum.truthy : JSNum → Bool
  | .fin q => decide (q ≠ 0)
  | .nan => false
  | _ => true

/-- Underlying rational of a finite `JSNum` (junk value `0` otherwise). -/
def JSNum.toQ : JSNum → ℚ
  | .fin q => q
  | _ => 0

/-- Condition of `part_000` line 294: `!Number.isFinite(duration) || duration <= 0`. -/
def needsDefaultDuration (d : JSNum) : Bool :=
  !d.isFinite || d.jsLeZero

/-- Lines 292-296 of `part_000`: the reported duration is replaced by `1`
when it is non-finite or `≤ 0`, otherwise kept. -/
def sanitizeDuration (d : JSNum) : ℚ :=
  if needsDefaultDuration d then 1 else d.toQ

/-- `targetFrameCount = 30` (line 302). -/
def targetFrameCount : ℕ := 30

/-- `maxFrameCount = 600` (line 303). -/
def maxFrameCount : ℕ := 600

/-- Value of the JavaScript expression `1 / framepSecond` as a rational.
Only consulted on the branch where `framepSecond` is a nonzero non-`NaN`
number, so the `fin 0` case (JS `Infinity`) and the `nan` case are dead;
`1 / ±Infinity` is `±0`, numerically `0`. -/
def jsRecip : JSNum → ℚ
  | .fin q => 1 / q
  | _ => 0

/-- Lines 304-311 of `part_000`:
`if (framepSecond > 0 || framepSecond) interval = Math.max(1/framepSecond, duration/maxFrameCount);
else interval = Math.max(0.1, duration/targetFrameCount);`. -/
def plannedInterval (fps : JSNum) (duration : ℚ) : ℚ :=
  if fps.gtZero || fps.truthy then
    max (jsRecip fps) (duration / 600)
  else
    max (1 / 10) (duration / 30)

/-- Line 327 of `part_000`: `let currentTime = Math.min(0.1, duration / 10)`. -/
def startOffset (duration : ℚ) : ℚ :=
  min (1 / 10) (duration / 10)

/-- Decimal rendering with two fractional digits, standing in for JavaScript
`Number.prototype.toFixed(2)` on the (nonnegative) timestamps the code
formats. -/
def toFixed2 (q : ℚ) : String :=
  let n : ℤ := Rat.floor (q * 100 + 1 / 2)
  toString (n / 100) ++ "." ++
    (if (n % 100).toNat < 10 then "0" else "") ++ toString (n % 100).toNat

/-- The `PortfolioFrame` interface of the source: identity, display handle
(object URL), selection flag and source timestamp.  The encoded raster blob
is represented by the handle that renders it. -/
structure PortfolioFrame where
  id : String
  url : String
  selected : Bool
  timestamp : ℚ
deriving DecidableEq, Repr

/-- Frame construction of lines 384-391 of `part_000`: id
`frame-${currentTime.toFixed(2)}`, a fresh object URL for the blob,
`selected: false`, and the current target timestamp. -/
def mkFrame (t : ℚ) : PortfolioFrame :=
  { id := "frame-" ++ toFixed2 t
  , url := "blob:frame-" ++ toFixed2 t
  , selected := false
  , timestamp := t }

/-- `MAX_LOOPS = 600` (line 331), the hard iteration ceiling of the loop. -/
def MAX_LOOPS : ℕ := 600

/-- JavaScript `Math.round`: floor of the argument plus one half. -/
def jsRound (q : ℚ) : ℤ :=
  Rat.floor (q + 1 / 2)

theorem jsRound_eq_floor (q : ℚ) : jsRound q = ⌊q + 1 / 2⌋ := by
  rw [jsRound, Rat.floor_def', Rat.floor_def]

/-- Lines 337-340 of `part_000`: the progress value reported at one step,
`Math.min(99, Math.round(Math.max(timeProgress, loopProgress)))` with
`timeProgress = currentTime/duration*100` and
`loopProgress = loopCount/MAX_LOOPS*100`, where `loopCount` has already
been incremented for the current step. -/
def progressValue (duration t : ℚ) (loopCount : ℕ) : ℤ :=
  min 99 (jsRound (max (t / duration * 100) ((loopCount : ℚ) / 600 * 100)))

/-- Observable outcome of one sampling run: the frames appended, the
progress values reported from inside the loop, and the number of loop
iterations executed. -/
structure RunResult where
  frames : List PortfolioFrame
  progressTrace : List ℤ
  steps : ℕ
deriving DecidableEq, Repr

/-- The sampling loop of `part_000` lines 330-395:
`while (currentTime < duration && loopCount < MAX_LOOPS)`, each iteration
incrementing `loopCount`, reporting progress, appending a frame when the
encoder yields a blob (`blobOk` tells which steps do), and advancing
`currentTime` by `interval`.  `fuel` is `MAX_LOOPS - loopCount`, so the
pattern-match on `fuel = 0` is exactly the guard `loopCount < MAX_LOOPS`. -/
def sampleLoop (duration interval : ℚ) (blobOk : ℕ → Bool) :
    ℕ → ℚ → ℕ → RunResult
  | 0, _, _ => ⟨[], [], 0⟩
  | fuel + 1, t, loopCount =>
    if t < duration then
      { frames := (if blobOk loopCount then [mkFrame t] else []) ++
          (sampleLoop duration interval blobOk fuel (t + interval) (loopCount + 1)).frames
      , progressTrace := progressValue duration t (loopCount + 1) ::
          (sampleLoop duration interval blobOk fuel (t + interval) (loopCount + 1)).progressTrace
      , steps :=
          (sampleLoop duration interval blobOk fuel (t + interval) (loopCount + 1)).steps + 1 }
    else ⟨[], [], 0⟩

/-- The data path of `processVideo` in `part_000` after metadata load:
sanitize the duration, plan the interval, and run the sampling loop from
the planned start offset with `loopCount = 0` and ceiling `MAX_LOOPS`. -/
def processVideoRun (rawDuration fps : JSNum) (blobOk : ℕ → Bool) : RunResult :=
  sampleLoop (sanitizeDuration rawDuration)
    (plannedInterval fps (sanitizeDuration rawDuration)) blobOk
    MAX_LOOPS (startOffset (sanitizeDuration rawDuration)) 0

/-- The full sequence of progress values observable for one run:
`setProgress(0)` on entry (line 254), the in-loop reports, and
`setProgress(100)` in the `finally` block (line 410). -/
def progressReports (rawDuration fps : JSNum) (blobOk : ℕ → Bool) : List ℤ :=
  0 :: (processVideoRun rawDuration fps blobOk).progressTrace ++ [100]

/-- JavaScript array indexing `frames[i]` with a possibly negative index:
`undefined` (here `none`) outside `[0, length)`. -/
def jsIndex (l : List PortfolioFrame) (i : ℤ) : Option PortfolioFrame :=
  if 0 ≤ i then l.get? i.toNat else none

/-- JavaScript `frames.findIndex(f => f.id === id)`: the first matching
position, `-1` when no frame matches. -/
def findIndex (frames : List PortfolioFrame) (id : String) : ℤ :=
  match frames.findIdx? (fun f => f.id == id) with
  | some n => (n : ℤ)
  | none => -1

/-- Outcome of `deleteFrame` (lines 452-480 of `part_000`): the frame list
afterwards, the object URLs revoked by the call, the frame the lightbox is
moved to (`nextFrameToShow`), and whether the run-exhausted path (empty the
list, warn, rerun) was taken. -/
structure DeleteResult where
  frames : List PortfolioFrame
  released : List String
  successor : Option PortfolioFrame
  exhausted : Bool
deriving DecidableEq, Repr

/-- Object URLs revoked by one `deleteFrame` call (`part_000` lines
460-461): the URL of the first frame whose id matches, nothing otherwise. -/
def deleteReleased (frames : List PortfolioFrame) (id : String) : List String :=
  match frames.find? (fun f => f.id == id) with
  | some f => [f.url]
  | none => []

/-- `nextFrameToShow` of `part_000` line 455:
`frames[frameIndex + 1] || frames[frameIndex - 1] || null`, computed on the
pre-deletion array. -/
def deleteSuccessor (frames : List PortfolioFrame) (id : String) : Option PortfolioFrame :=
  (jsIndex frames (findIndex frames id + 1)).orElse
    (fun _ => jsIndex frames (findIndex frames id - 1))

/-- `deleteFrame(id)` of `part_000` lines 452-480: compute the successor
from the pre-deletion array, filter the frame out, revoke the object URL of
the found frame (if any), and either take the run-exhausted branch (clear
the list and drop the lightbox; the deferred `handleRerun` then runs on the
already-empty list) or install the filtered list. -/
def deleteFrame (frames : List PortfolioFrame) (id : String) : DeleteResult :=
  if (frames.filter (fun f => f.id != id)).length = 0 then
    { frames := []
    , released := deleteReleased frames id
    , successor := none
    , exhausted := true }
  else
    { frames := frames.filter (fun f => f.id != id)
    , released := deleteReleased frames id
    , successor := deleteSuccessor frames id
    , exhausted := false }

/-- `handleRerun` of `part_000` lines 435-442: revoke the object URL of every current
frame and clear the list.  Returns the new (empty) list and the
handles released. -/
def handleRerun (frames : List PortfolioFrame) : List PortfolioFrame × List String :=
  ([], frames.map (fun f => f.url))

/-- The run-reset performed at the top of `processVideo` when a new upload
starts (`part_000` lines 252-255): `setFrames([])` with no URL revocation.
Returns the new list and the handles released (none). -/
def newUploadReset (_frames : List PortfolioFrame) : List PortfolioFrame × List String :=
  ([], [])

/-- JavaScript `s.padStart(2, '0')`. -/
def padStart2 (s : String) : String :=
  if 2 ≤ s.length then s else String.mk (List.replicate (2 - s.length) '0') ++ s

/-- Archive entry name assigned to the selected frame at 0-based position
`i` (`part_000` lines 498-501): `portfolio_shot_` plus the 1-based index
zero-padded to two digits, plus `.jpg`. -/
def entryName (i : ℕ) : String :=
  "portfolio_shot_" ++ padStart2 (toString (i + 1)) ++ ".jpg"

/-- `handleDownload` of `part_000` lines 486-502 up to archive finalization:
refuse an empty selection, otherwise pair each selected frame (in current
display order) with its archive entry name. -/
def handleDownload (frames : List PortfolioFrame) :
    Option (List (String × PortfolioFrame)) :=
  let selectedFrames := frames.filter (fun f => f.selected)
  if selectedFrames.length = 0 then none
  else some (selectedFrames.mapIdx (fun i f => (entryName i, f)))

/-- Concrete frame fixture (selected). -/
def frameA : PortfolioFrame :=
  { id := "frame-1.00", url := "blob:frame-a", selected := true, timestamp := 1 }

/-- Concrete frame fixture (not selected). -/
def frameB : PortfolioFrame :=
  { id := "frame-2.00", url := "blob:frame-b", selected := false, timestamp := 2 }

/-- Concrete frame fixture (selected). -/
def frameC : PortfolioFrame :=
  { id := "frame-3.00", url := "blob:frame-c", selected := true, timestamp := 3 }

/-! ### Basic facts about the sampling loop -/

theorem sampleLoop_stop (d i : ℚ) (b : ℕ → Bool) (fuel : ℕ) (t : ℚ) (k : ℕ)
    (h : ¬t < d) : sampleLoop d i b fuel t k = ⟨[], [], 0⟩ := by
  cases fuel with
  | zero => rfl
  | succ n =>
    simp only [sampleLoop]
    rw [if_neg h]

theorem sampleLoop_go (d i : ℚ) (b : ℕ → Bool) (fuel : ℕ) (t : ℚ) (k : ℕ)
    (h : t < d) :
    sampleLoop d i b (fuel + 1) t k =
      { frames := (if b k then [mkFrame t] else []) ++
          (sampleLoop d i b fuel (t + i) (k + 1)).frames
      , progressTrace := progressValue d t (k + 1) ::
          (sampleLoop d i b fuel (t + i) (k + 1)).progressTrace
      , steps := (sampleLoop d i b fuel (t + i) (k + 1)).steps + 1 } := by
  simp only [sampleLoop]
  rw [if_pos h]

theorem sampleLoop_steps_le (d i : ℚ) (b : ℕ → Bool) :
    ∀ (fuel : ℕ) (t : ℚ) (k : ℕ), (sampleLoop d i b fuel t k).steps ≤ fuel := by
  intro fuel
  induction fuel with
  | zero => intro t k; simp [sampleLoop]
  | succ n ih =>
    intro t k
    simp only [sampleLoop]
    split
    · exact Nat.succ_le_succ (ih (t + i) (k + 1))
    · exact Nat.zero_le _

theorem sampleLoop_length_le (d i : ℚ) (b : ℕ → Bool) :
    ∀ (fuel : ℕ) (t : ℚ) (k : ℕ), (sampleLoop d i b fuel t k).frames.length ≤ fuel := by
  intro fuel
  induction fuel with
  | zero => intro t k; simp [sampleLoop]
  | succ n ih =>
    intro t k
    simp only [sampleLoop]
    split
    · show ((if b k then [mkFrame t] else []) ++
        (sampleLoop d i b n (t + i) (k + 1)).frames).length ≤ n + 1
      rw [List.length_append]
      have h1 : (if b k then [mkFrame t] else []).length ≤ 1 := by
        split <;> simp
      have h2 := ih (t + i) (k + 1)
      omega
    · simp

/-- C1: for every duration, interval and start offset — in particular for a
corrupted or non-advancing duration that the accumulating `currentTime`
never reaches — the sampling loop executes at most `MAX_LOOPS = 600`
iterations; the bound does not depend on the time-based guard, and the
full `processVideo` pipeline inherits it. -/
theorem C1_step_ceiling (duration interval t0 : ℚ) (blobOk : ℕ → Bool) (d fps : JSNum) :
    (sampleLoop duration interval blobOk MAX_LOOPS t0 0).steps ≤ MAX_LOOPS ∧
    (processVideoRun d fps blobOk).steps ≤ MAX_LOOPS :=
  ⟨sampleLoop_steps_le duration interval blobOk MAX_LOOPS t0 0,
   sampleLoop_steps_le _ _ blobOk MAX_LOOPS _ 0⟩

/-- C2: a completed sampling run never holds more than
`maxFrameCount = 600` frames, for every duration, every start offset and
every interval — including a degenerate zero or negative interval — and in
particular for the interval the planner actually computes. -/
theorem C2_frame_ceiling (duration interval t0 : ℚ) (blobOk : ℕ → Bool) (d fps : JSNum) :
    (sampleLoop duration interval blobOk MAX_LOOPS t0 0).frames.length ≤ maxFrameCount ∧
    (processVideoRun d fps blobOk).frames.length ≤ maxFrameCount :=
  ⟨sampleLoop_length_le duration interval blobOk MAX_LOOPS t0 0,
   sampleLoop_length_le _ _ blobOk MAX_LOOPS _ 0⟩

/-- C3: whenever the decode source reports a non-finite or non-positive
duration, the duration used for planning the interval and the start offset
is the default `1` second, and the run still terminates within the step
ceiling. -/
theorem C3_default_duration (d fps : JSNum) (blobOk : ℕ → Bool)
    (h : needsDefaultDuration d = true) :
    sanitizeDuration d = 1 ∧
    plannedInterval fps (sanitizeDuration d) = plannedInterval fps 1 ∧
    startOffset (sanitizeDuration d) = startOffset 1 ∧
    (processVideoRun d fps blobOk).steps ≤ MAX_LOOPS := by
  have h1 : sanitizeDuration d = 1 := by
    unfold sanitizeDuration
    simp [h]
  exact ⟨h1, by rw [h1], by rw [h1], sampleLoop_steps_le _ _ blobOk MAX_LOOPS _ 0⟩

/-- Witness for C3: a live-stream-like source reporting `duration = ∞`. -/
theorem C3_default_duration_witness :
    needsDefaultDuration JSNum.posInf = true ∧
    sanitizeDuration JSNum.posInf = 1 ∧
    (processVideoRun JSNum.posInf (JSNum.fin 1) (fun _ => true)).steps ≤ MAX_LOOPS :=
  ⟨by decide,
   (C3_default_duration JSNum.posInf (JSNum.fin 1) (fun _ => true) (by decide)).1,
   (C3_default_duration JSNum.posInf (JSNum.fin 1) (fun _ => true) (by decide)).2.2.2⟩

/-! ### The interval planner -/

theorem sanitizeDuration_pos (d : JSNum) : 0 < sanitizeDuration d := by
  unfold sanitizeDuration
  split
  · norm_num
  case isFalse h =>
    cases d with
    | fin q =>
      simp only [needsDefaultDuration, JSNum.isFinite, JSNum.jsLeZero, Bool.not_true,
        Bool.false_or, decide_eq_true_eq] at h
      simp only [JSNum.toQ]
      exact lt_of_not_le (by simpa using h)
    | posInf => simp [needsDefaultDuration, JSNum.isFinite] at h
    | negInf => simp [needsDefaultDuration, JSNum.isFinite] at h
    | nan => simp [needsDefaultDuration, JSNum.isFinite] at h

theorem plannedInterval_pos (fps : JSNum) {duration : ℚ} (hd : 0 < duration) :
    0 < plannedInterval fps duration := by
  unfold plannedInterval
  split
  · exact lt_of_lt_of_le (by positivity) (le_max_right (jsRecip fps) (duration / 600))
  · exact lt_of_lt_of_le (by norm_num) (le_max_left (1 / 10) (duration / 30))

theorem startOffset_nonneg {duration : ℚ} (hd : 0 < duration) :
    0 ≤ startOffset duration :=
  le_min (by norm_num) (by positivity)

/-- C5 counterexample: at a negative requested rate (`-1` frames per
second) and a 10-second duration, the code takes the rate branch — the
truthiness test `framepSecond > 0 || framepSecond` accepts any nonzero
non-NaN number — and plans `max(1/(-1), 10/600) = 1/60`, not the fallback
`max(0.1, 10/30) = 1/3` the claim specifies for non-positive rates. -/
theorem C5_counterexample :
    plannedInterval (JSNum.fin (-1)) 10 ≠ max (1 / 10 : ℚ) (10 / 30) ∧
    plannedInterval (JSNum.fin (-1)) 10 = 1 / 60 := by
  have hcond : (JSNum.gtZero (JSNum.fin (-1)) || JSNum.truthy (JSNum.fin (-1))) = true := by
    simp [JSNum.gtZero, JSNum.truthy]
  have h : plannedInterval (JSNum.fin (-1)) 10 = 1 / 60 := by
    unfold plannedInterval
    rw [if_pos hcond, show jsRecip (JSNum.fin (-1)) = -1 by norm_num [jsRecip],
      max_eq_right (by norm_num : (-1 : ℚ) ≤ 10 / 600)]
    norm_num
  refine ⟨?_, h⟩
  rw [h, max_eq_right (by norm_num : (1 / 10 : ℚ) ≤ 10 / 30)]
  norm_num

/-- C5 (amended): for every duration, a nonzero non-NaN requested rate —
positive, negative or infinite — yields `interval = max(1/rate,
duration/600)` (with `1/±∞ = 0`); only a zero or NaN rate falls back to
`max(1/10, duration/30)`; and the start offset is always
`min(1/10, duration/10)`. -/
theorem C5_planner (duration q : ℚ) :
    (q ≠ 0 → plannedInterval (JSNum.fin q) duration = max (1 / q) (duration / 600)) ∧
    plannedInterval (JSNum.fin 0) duration = max (1 / 10) (duration / 30) ∧
    plannedInterval JSNum.nan duration = max (1 / 10) (duration / 30) ∧
    plannedInterval JSNum.posInf duration = max 0 (duration / 600) ∧
    plannedInterval JSNum.negInf duration = max 0 (duration / 600) ∧
    startOffset duration = min (1 / 10) (duration / 10) := by
  refine ⟨?_, ?_, ?_, ?_, ?_, rfl⟩
  · intro hq
    simp [plannedInterval, JSNum.gtZero, JSNum.truthy, jsRecip, hq]
  · simp [plannedInterval, JSNum.gtZero, JSNum.truthy]
  · simp [plannedInterval, JSNum.gtZero, JSNum.truthy]
  · simp [plannedInterval, JSNum.gtZero, JSNum.truthy, jsRecip]
  · simp [plannedInterval, JSNum.gtZero, JSNum.truthy, jsRecip]

/-- Witness for C5 at a positive finite rate of 2 fps on a 10-second
duration. -/
theorem C5_planner_witness :
    plannedInterval (JSNum.fin 2) 10 = max (1 / 2) (10 / 600) ∧
    startOffset 10 = min (1 / 10) (10 / 10) :=
  ⟨(C5_planner 10 2).1 (by norm_num), (C5_planner 10 2).2.2.2.2.2⟩

/-! ### Timestamp ordering -/

@[simp]
theorem mkFrame_timestamp (t : ℚ) : (mkFrame t).timestamp = t := rfl

theorem sampleLoop_frames_sorted (d i : ℚ) (b : ℕ → Bool) (hi : 0 < i) :
    ∀ (fuel : ℕ) (t : ℚ) (k : ℕ),
      (∀ f ∈ (sampleLoop d i b fuel t k).frames, t ≤ f.timestamp ∧ f.timestamp < d) ∧
      (sampleLoop d i b fuel t k).frames.Pairwise
        (fun a c => a.timestamp < c.timestamp) := by
  intro fuel
  induction fuel with
  | zero => intro t k; simp [sampleLoop]
  | succ n ih =>
    intro t k
    simp only [sampleLoop]
    split
    case isTrue ht =>
      obtain ⟨ihb, ihp⟩ := ih (t + i) (k + 1)
      constructor
      · intro f hf
        rcases List.mem_append.mp hf with hf | hf
        · have hft : f = mkFrame t := by
            by_cases hb : b k
            · simpa [hb] using hf
            · simp [hb] at hf
          subst hft
          exact ⟨le_refl _, by simpa using ht⟩
        · obtain ⟨h1, h2⟩ := ihb f hf
          exact ⟨le_trans (by linarith) h1, h2⟩
      · apply List.pairwise_append.mpr
        refine ⟨?_, ihp, ?_⟩
        · by_cases hb : b k <;> simp [hb]
        · intro a ha c hc
          have hat : a = mkFrame t := by
            by_cases hb : b k
            · simpa [hb] using ha
            · simp [hb] at ha
          subst hat
          have hc' := (ihb c hc).1
          simp only [mkFrame_timestamp]
          linarith
    case isFalse => simp

/-- C6: the frames of a completed run have strictly increasing timestamps
in sequence order, and every timestamp lies in `[0, duration)` for the
(sanitized) duration of the run. -/
theorem C6_timestamps (d fps : JSNum) (blobOk : ℕ → Bool) :
    (processVideoRun d fps blobOk).frames.Pairwise
      (fun a c => a.timestamp < c.timestamp) ∧
    ∀ f ∈ (processVideoRun d fps blobOk).frames,
      0 ≤ f.timestamp ∧ f.timestamp < sanitizeDuration d := by
  have hd := sanitizeDuration_pos d
  have hi := plannedInterval_pos fps hd
  have h := sampleLoop_frames_sorted (sanitizeDuration d)
    (plannedInterval fps (sanitizeDuration d)) blobOk hi MAX_LOOPS
    (startOffset (sanitizeDuration d)) 0
  refine ⟨h.2, ?_⟩
  intro f hf
  obtain ⟨h1, h2⟩ := h.1 f hf
  exact ⟨le_trans (startOffset_nonneg hd) h1, h2⟩

theorem sanitizeDuration_one : sanitizeDuration (JSNum.fin 1) = 1 := by decide

theorem plannedInterval_one : plannedInterval (JSNum.fin 1) 1 = 1 := by
  unfold plannedInterval
  rw [if_pos (by decide), show jsRecip (JSNum.fin 1) = 1 by norm_num [jsRecip],
    max_eq_left (by norm_num : (1 : ℚ) / 600 ≤ 1)]

theorem startOffset_one : startOffset 1 = 1 / 10 := by
  unfold startOffset
  rw [min_eq_left (by norm_num : (1 : ℚ) / 10 ≤ 1 / 10)]

/-- Concrete evaluation of the pipeline on a 1-second source sampled at
1 fps with every blob succeeding: one loop iteration, one frame at
timestamp `1/10`, one in-loop progress report. -/
theorem oneSecondRun_eq :
    processVideoRun (JSNum.fin 1) (JSNum.fin 1) (fun _ => true) =
      { frames := [mkFrame (1 / 10)]
      , progressTrace := [progressValue 1 (1 / 10) 1]
      , steps := 1 } := by
  unfold processVideoRun
  rw [sanitizeDuration_one, plannedInterval_one, startOffset_one,
    show MAX_LOOPS = 599 + 1 from rfl,
    sampleLoop_go 1 1 (fun _ => true) 599 (1 / 10) 0 (by norm_num),
    sampleLoop_stop 1 1 (fun _ => true) 599 (1 / 10 + 1) (0 + 1) (by norm_num)]
  simp

/-- Witness for C6: a 1-second source at 1 fps produces the single frame at
timestamp `1/10`, which indeed lies in `[0, 1)`. -/
theorem C6_timestamps_witness :
    mkFrame (1 / 10) ∈ (processVideoRun (JSNum.fin 1) (JSNum.fin 1) (fun _ => true)).frames ∧
    (0 ≤ (mkFrame (1 / 10 : ℚ)).timestamp ∧
      (mkFrame (1 / 10 : ℚ)).timestamp < sanitizeDuration (JSNum.fin 1)) ∧
    (processVideoRun (JSNum.fin 1) (JSNum.fin 1) (fun _ => true)).frames.Pairwise
      (fun a c => a.timestamp < c.timestamp) := by
  have hm : mkFrame (1 / 10 : ℚ) ∈
      (processVideoRun (JSNum.fin 1) (JSNum.fin 1) (fun _ => true)).frames := by
    rw [oneSecondRun_eq]
    simp
  exact ⟨hm, (C6_timestamps (JSNum.fin 1) (JSNum.fin 1) (fun _ => true)).2 _ hm,
    (C6_timestamps (JSNum.fin 1) (JSNum.fin 1) (fun _ => true)).1⟩

/-! ### Progress reporting -/

theorem progressValue_nonneg (d t : ℚ) (k : ℕ) : 0 ≤ progressValue d t k := by
  unfold progressValue
  refine le_min (by norm_num) ?_
  rw [jsRound_eq_floor]
  apply Int.le_floor.mpr
  push_cast
  have h1 : (0 : ℚ) ≤ (k : ℚ) / 600 * 100 := by positivity
  have h2 := le_max_right (t / d * 100) ((k : ℚ) / 600 * 100)
  linarith

theorem progressValue_le_99 (d t : ℚ) (k : ℕ) : progressValue d t k ≤ 99 :=
  min_le_left _ _

theorem progressValue_mono (d : ℚ) (hd : 0 < d) {t t' : ℚ} (ht : t ≤ t')
    {k k' : ℕ} (hk : k ≤ k') : progressValue d t k ≤ progressValue d t' k' := by
  unfold progressValue
  apply min_le_min (le_refl 99)
  rw [jsRound_eq_floor, jsRound_eq_floor]
  apply Int.floor_le_floor
  apply add_le_add_right
  apply max_le_max
  · apply mul_le_mul_of_nonneg_right _ (by norm_num : (0 : ℚ) ≤ 100)
    rw [div_eq_mul_inv, div_eq_mul_inv]
    exact mul_le_mul_of_nonneg_right ht (inv_nonneg.mpr hd.le)
  · apply mul_le_mul_of_nonneg_right _ (by norm_num : (0 : ℚ) ≤ 100)
    apply div_le_div_of_nonneg_right ?_ (by norm_num)
    exact_mod_cast hk

theorem sampleLoop_trace_eq (d i : ℚ) (b : ℕ → Bool) :
    ∀ (fuel : ℕ) (t : ℚ) (k : ℕ),
      (sampleLoop d i b fuel t k).progressTrace =
        (List.range (sampleLoop d i b fuel t k).steps).map
          (fun (j : ℕ) => progressValue d (t + (j : ℚ) * i) (k + j + 1)) := by
  intro fuel
  induction fuel with
  | zero => intro t k; simp [sampleLoop]
  | succ n ih =>
    intro t k
    simp only [sampleLoop]
    split
    case isTrue ht =>
      show progressValue d t (k + 1) :: (sampleLoop d i b n (t + i) (k + 1)).progressTrace =
        (List.range ((sampleLoop d i b n (t + i) (k + 1)).steps + 1)).map
          (fun (j : ℕ) => progressValue d (t + (j : ℚ) * i) (k + j + 1))
      rw [ih (t + i) (k + 1), List.range_succ_eq_map, List.map_cons, List.map_map]
      congr 1
      · norm_num
      · apply List.map_congr_left
        intro j hj
        simp only [Function.comp_apply]
        congr 1
        · push_cast
          ring
        · omega
    case isFalse => simp

theorem sampleLoop_trace_chain (d i : ℚ) (b : ℕ → Bool) (hd : 0 < d) (hi : 0 ≤ i) :
    ∀ (fuel : ℕ) (t : ℚ) (k : ℕ),
      List.Chain' (fun a c => a ≤ c) (sampleLoop d i b fuel t k).progressTrace ∧
      ∀ p ∈ (sampleLoop d i b fuel t k).progressTrace,
        progressValue d t (k + 1) ≤ p := by
  intro fuel
  induction fuel with
  | zero => intro t k; simp [sampleLoop]
  | succ n ih =>
    intro t k
    simp only [sampleLoop]
    split
    case isTrue ht =>
      obtain ⟨ihc, ihb⟩ := ih (t + i) (k + 1)
      have hmono : progressValue d t (k + 1) ≤ progressValue d (t + i) (k + 1 + 1) :=
        progressValue_mono d hd (by linarith) (by omega)
      constructor
      · apply List.chain'_cons'.mpr
        refine ⟨?_, ihc⟩
        intro y hy
        exact le_trans hmono (ihb y (List.mem_of_mem_head? hy))
      · intro p hp
        rcases List.mem_cons.mp hp with rfl | hp
        · exact le_refl _
        · exact le_trans hmono (ihb p hp)
    case isFalse => simp

/-- C7: every in-loop progress report equals
`min(99, round(max(timeProgress, stepProgress)))` at its step (with
`timeProgress = currentTime/duration·100` and
`stepProgress = stepsTaken/600·100`), the full reported sequence
(starting 0, ending 100) is monotonically non-decreasing, the in-loop
reports stay within `[0, 99]`, and exactly 100 is reported only by the
final post-run report. -/
theorem C7_progress (d fps : JSNum) (blobOk : ℕ → Bool) :
    ((processVideoRun d fps blobOk).progressTrace =
      (List.range (processVideoRun d fps blobOk).steps).map
        (fun (j : ℕ) => progressValue (sanitizeDuration d)
          (startOffset (sanitizeDuration d) +
            (j : ℚ) * plannedInterval fps (sanitizeDuration d)) (j + 1))) ∧
    List.Chain' (fun a c => a ≤ c) (progressReports d fps blobOk) ∧
    (∀ p ∈ (processVideoRun d fps blobOk).progressTrace, 0 ≤ p ∧ p ≤ 99) ∧
    (progressReports d fps blobOk).getLast? = some 100 := by
  have hd := sanitizeDuration_pos d
  have hi := plannedInterval_pos fps hd
  have htr := sampleLoop_trace_eq (sanitizeDuration d)
    (plannedInterval fps (sanitizeDuration d)) blobOk MAX_LOOPS
    (startOffset (sanitizeDuration d)) 0
  have hchain := sampleLoop_trace_chain (sanitizeDuration d)
    (plannedInterval fps (sanitizeDuration d)) blobOk hd hi.le MAX_LOOPS
    (startOffset (sanitizeDuration d)) 0
  have hbounds : ∀ p ∈ (processVideoRun d fps blobOk).progressTrace, 0 ≤ p ∧ p ≤ 99 := by
    intro p hp
    rw [show (processVideoRun d fps blobOk).progressTrace =
      (sampleLoop (sanitizeDuration d) (plannedInterval fps (sanitizeDuration d)) blobOk
        MAX_LOOPS (startOffset (sanitizeDuration d)) 0).progressTrace from rfl, htr] at hp
    obtain ⟨j, _, rfl⟩ := List.mem_map.mp hp
    exact ⟨progressValue_nonneg _ _ _, progressValue_le_99 _ _ _⟩
  refine ⟨?_, ?_, hbounds, ?_⟩
  · rw [show (processVideoRun d fps blobOk).progressTrace =
      (sampleLoop (sanitizeDuration d) (plannedInterval fps (sanitizeDuration d)) blobOk
        MAX_LOOPS (startOffset (sanitizeDuration d)) 0).progressTrace from rfl, htr]
    apply List.map_congr_left
    intro j hj
    congr 1
    omega
  · unfold progressReports
    apply List.chain'_cons'.mpr
    constructor
    · intro y hy
      cases htl : (processVideoRun d fps blobOk).progressTrace with
      | nil =>
        rw [htl] at hy
        simp at hy
        omega
      | cons a l =>
        rw [htl] at hy
        simp only [List.append_eq, List.cons_append, List.head?_cons, Option.mem_def,
          Option.some_inj] at hy
        subst hy
        exact (hbounds _ (by rw [htl]; exact List.mem_cons_self _ _)).1
    · apply List.chain'_append.mpr
      refine ⟨hchain.1, List.chain'_singleton 100, ?_⟩
      intro x hx y hy
      simp only [List.head?_cons, Option.mem_def, Option.some_inj] at hy
      subst hy
      have hx' : x ∈ (processVideoRun d fps blobOk).progressTrace :=
        List.mem_of_mem_getLast? hx
      have := (hbounds x hx').2
      omega
  · unfold progressReports
    exact List.getLast?_concat _

/-- Witness for C7: the 1-second 1-fps run reports the single in-loop
value 10 (within `[0, 99]`), the full report sequence `[0, 10, 100]` is
non-decreasing, and ends with 100. -/
theorem C7_progress_witness :
    (0 ≤ (10 : ℤ) ∧ (10 : ℤ) ≤ 99) ∧
    List.Chain' (fun a c => a ≤ c)
      (progressReports (JSNum.fin 1) (JSNum.fin 1) (fun _ => true)) ∧
    (progressReports (JSNum.fin 1) (JSNum.fin 1) (fun _ => true)).getLast? = some 100 := by
  have hpv : progressValue 1 (1 / 10) 1 = 10 := by
    unfold progressValue
    rw [show ((1 : ℚ) / 10) / 1 * 100 = 10 by norm_num,
      show ((1 : ℕ) : ℚ) / 600 * 100 = 1 / 6 by norm_num,
      max_eq_left (by norm_num : (1 / 6 : ℚ) ≤ 10), jsRound_eq_floor,
      show ((10 : ℚ) + 1 / 2) = 21 / 2 by norm_num,
      show ⌊(21 / 2 : ℚ)⌋ = 10 by rw [Int.floor_eq_iff]; norm_num,
      min_eq_right (by norm_num : (10 : ℤ) ≤ 99)]
  have hm : (10 : ℤ) ∈ (processVideoRun (JSNum.fin 1) (JSNum.fin 1)
      (fun _ => true)).progressTrace := by
    rw [oneSecondRun_eq]
    show (10 : ℤ) ∈ [progressValue 1 (1 / 10) 1]
    rw [hpv]
    exact List.mem_singleton_self 10
  exact ⟨(C7_progress (JSNum.fin 1) (JSNum.fin 1) (fun _ => true)).2.2.1 10 hm,
    (C7_progress (JSNum.fin 1) (JSNum.fin 1) (fun _ => true)).2.1,
    (C7_progress (JSNum.fin 1) (JSNum.fin 1) (fun _ => true)).2.2.2⟩

/-! ### Frame lifecycle: deletion, discard, new upload -/

theorem find?_id_of_nodup (f : PortfolioFrame) :
    ∀ (frames : List PortfolioFrame), (frames.map PortfolioFrame.id).Nodup →
      f ∈ frames → frames.find? (fun g => g.id == f.id) = some f := by
  intro frames
  induction frames with
  | nil => intro _ h; cases h
  | cons g gs ih =>
    intro hn hf
    rw [List.map_cons, List.nodup_cons] at hn
    obtain ⟨hg, hgs⟩ := hn
    by_cases hgid : g.id = f.id
    · have hgf : g = f := by
        rcases List.mem_cons.mp hf with h | h
        · exact h.symm
        · exact absurd (by rw [hgid]; exact List.mem_map_of_mem _ h) hg
      subst hgf
      exact List.find?_cons_of_pos _ (by simp)
    · rw [List.find?_cons_of_neg _ (by simp [hgid])]
      apply ih hgs
      rcases List.mem_cons.mp hf with h | h
      · exact absurd (congrArg PortfolioFrame.id h.symm) hgid
      · exact h

theorem filter_length_of_nodup (f : PortfolioFrame) :
    ∀ (frames : List PortfolioFrame), (frames.map PortfolioFrame.id).Nodup →
      f ∈ frames →
      (frames.filter (fun g => g.id != f.id)).length + 1 = frames.length := by
  intro frames
  induction frames with
  | nil => intro _ h; cases h
  | cons g gs ih =>
    intro hn hf
    rw [List.map_cons, List.nodup_cons] at hn
    obtain ⟨hg, hgs⟩ := hn
    by_cases hgid : g.id = f.id
    · have hkeep : gs.filter (fun x => x.id != f.id) = gs := by
        apply List.filter_eq_self.mpr
        intro x hx
        rw [bne_iff_ne]
        intro hxe
        exact hg (by rw [hgid, ← hxe]; exact List.mem_map_of_mem _ hx)
      rw [List.filter_cons_of_neg (by simp [hgid]), hkeep, List.length_cons]
    · have hf' : f ∈ gs := by
        rcases List.mem_cons.mp hf with h | h
        · exact absurd (congrArg PortfolioFrame.id h.symm) hgid
        · exact h
      rw [List.filter_cons_of_pos (by simp [hgid])]
      rw [List.length_cons, List.length_cons]
      have := ih hgs hf'
      omega

theorem not_mem_filter_ne (f : PortfolioFrame) (frames : List PortfolioFrame) :
    f ∉ frames.filter (fun g => g.id != f.id) := by
  intro h
  have := (List.mem_filter.mp h).2
  simp at this

theorem findIdx?_of_found {α : Type} (p : α → Bool) (l : List α)
    (h : ∃ x ∈ l, p x = true) : l.findIdx? p = some (l.findIdx p) := by
  cases hfi : l.findIdx? p with
  | none =>
    obtain ⟨x, hx, hpx⟩ := h
    have := List.findIdx?_eq_none_iff.mp hfi x hx
    rw [hpx] at this
    cases this
  | some i =>
    have heq := List.findIdx_eq_findIdx? p l
    rw [hfi] at heq
    rw [heq]

theorem deleteFrame_released (frames : List PortfolioFrame) (id : String) :
    (deleteFrame frames id).released = deleteReleased frames id := by
  unfold deleteFrame
  split <;> rfl

theorem deleteFrame_frames_eq (frames : List PortfolioFrame) (id : String) :
    (deleteFrame frames id).frames = frames.filter (fun g => g.id != id) := by
  unfold deleteFrame
  split
  case isTrue h => exact (List.length_eq_zero.mp h).symm
  case isFalse => rfl

theorem deleteFrame_released_of_mem (frames : List PortfolioFrame) (f : PortfolioFrame)
    (hids : (frames.map PortfolioFrame.id).Nodup) (hf : f ∈ frames) :
    (deleteFrame frames f.id).released = [f.url] := by
  rw [deleteFrame_released]
  unfold deleteReleased
  rw [find?_id_of_nodup f frames hids hf]

theorem deleteFrame_length_of_mem (frames : List PortfolioFrame) (f : PortfolioFrame)
    (hids : (frames.map PortfolioFrame.id).Nodup) (hf : f ∈ frames) :
    (deleteFrame frames f.id).frames.length + 1 = frames.length := by
  rw [deleteFrame_frames_eq]
  exact filter_length_of_nodup f frames hids hf

/-- C4 counterexample: starting a new upload while a previous run still
holds a live frame clears the frame list but releases no display handle at
all, contradicting the claim that every handle of the previous run is
released on a new upload. -/
theorem C4_counterexample :
    newUploadReset [frameA] = ([], []) ∧ ([frameA] : List PortfolioFrame) ≠ [] :=
  ⟨rfl, List.cons_ne_nil frameA []⟩

/-- C4 (amended): the handle of each live frame is released exactly once,
exactly when the frame leaves the run via individual removal or via the
explicit start-over discard, and never via both — removal releases exactly
the handle of the removed frame, a subsequent discard releases each remaining
handle once and the removed one never again, a discard alone releases each
live handle once — but starting a new upload clears the previous run
without releasing any handle (the upload screen is only reachable once the
run is already empty). -/
theorem C4_handle_lifecycle (frames : List PortfolioFrame) (id : String)
    (f : PortfolioFrame)
    (hids : (frames.map PortfolioFrame.id).Nodup)
    (hurls : (frames.map PortfolioFrame.url).Nodup)
    (hf : f ∈ frames) (hid : f.id = id) :
    (deleteFrame frames id).released = [f.url] ∧
    f ∉ (deleteFrame frames id).frames ∧
    (handleRerun (deleteFrame frames id).frames).2.count f.url = 0 ∧
    ((deleteFrame frames id).released ++
      (handleRerun (deleteFrame frames id).frames).2).count f.url = 1 ∧
    (∀ g ∈ frames, (handleRerun frames).2.count g.url = 1) ∧
    newUploadReset frames = ([], []) := by
  subst hid
  have hrel := deleteFrame_released_of_mem frames f hids hf
  have hfr := deleteFrame_frames_eq frames f.id
  have hnotmem : f ∉ (deleteFrame frames f.id).frames := by
    rw [hfr]
    exact not_mem_filter_ne f frames
  have hurlnot : f.url ∉ (deleteFrame frames f.id).frames.map (fun g => g.url) := by
    rw [hfr]
    intro hmem
    obtain ⟨g, hg, hgu⟩ := List.mem_map.mp hmem
    have hgf : g = f :=
      List.inj_on_of_nodup_map hurls (List.mem_of_mem_filter hg) hf hgu
    exact not_mem_filter_ne f frames (hgf ▸ hg)
  have hcount0 : (handleRerun (deleteFrame frames f.id).frames).2.count f.url = 0 := by
    unfold handleRerun
    exact List.count_eq_zero.mpr hurlnot
  refine ⟨hrel, hnotmem, hcount0, ?_, ?_, rfl⟩
  · rw [List.count_append, hrel, hcount0]
    simp
  · intro g hg
    unfold handleRerun
    exact List.count_eq_one_of_mem hurls (List.mem_map_of_mem _ hg)

/-- Witness for C4 on a two-frame run: deleting the first frame releases
exactly its handle, overall exactly once, and a new upload releases
nothing at all. -/
theorem C4_handle_lifecycle_witness :
    (deleteFrame [frameA, frameB] frameA.id).released = [frameA.url] ∧
    ((deleteFrame [frameA, frameB] frameA.id).released ++
      (handleRerun (deleteFrame [frameA, frameB] frameA.id).frames).2).count frameA.url = 1 ∧
    newUploadReset [frameA, frameB] = ([], []) := by
  have h := C4_handle_lifecycle [frameA, frameB] frameA.id frameA (by decide) (by decide)
    (List.mem_cons_self frameA [frameB]) rfl
  exact ⟨h.1, h.2.2.2.1, h.2.2.2.2.2⟩

/-- C9: removing a present frame (ids unique, as one sampling run
guarantees) shrinks the sequence by exactly one, releases exactly its one
display handle, designates as successor the next frame in sequence order
if one exists, else the previous one, else none, and removing the last
frame takes the run-exhausted path with an empty sequence and zero
remaining handles. -/
theorem C9_remove (frames : List PortfolioFrame) (id : String) (f : PortfolioFrame)
    (hids : (frames.map PortfolioFrame.id).Nodup)
    (hf : f ∈ frames) (hid : f.id = id) :
    (deleteFrame frames id).frames.length + 1 = frames.length ∧
    (deleteFrame frames id).released = [f.url] ∧
    (deleteFrame frames id).successor =
      (frames.get? (frames.findIdx (fun g => g.id == id) + 1)).orElse
        (fun _ => if frames.findIdx (fun g => g.id == id) = 0 then none
          else frames.get? (frames.findIdx (fun g => g.id == id) - 1)) ∧
    (frames.length = 1 →
      (deleteFrame frames id).exhausted = true ∧
      (deleteFrame frames id).frames = [] ∧
      (handleRerun (deleteFrame frames id).frames).2 = []) := by
  subst hid
  have hfound : ∃ x ∈ frames, (fun g => g.id == f.id) x = true := ⟨f, hf, by simp⟩
  have hflen := filter_length_of_nodup f frames hids hf
  refine ⟨deleteFrame_length_of_mem frames f hids hf,
    deleteFrame_released_of_mem frames f hids hf, ?_, ?_⟩
  · have hidx := findIdx?_of_found (fun g => g.id == f.id) frames hfound
    have hfi : findIndex frames f.id = (frames.findIdx (fun g => g.id == f.id) : ℤ) := by
      unfold findIndex
      rw [hidx]
    unfold deleteFrame
    split
    case isTrue hemp =>
      have h1 : frames.length = 1 := by omega
      have hlt := List.findIdx_lt_length_of_exists hfound
      have h0 : frames.findIdx (fun g => g.id == f.id) = 0 := by omega
      rw [h0]
      rw [List.get?_eq_none.mpr (by omega)]
      simp
    case isFalse =>
      show deleteSuccessor frames f.id = _
      unfold deleteSuccessor jsIndex
      rw [hfi]
      rw [if_pos (by omega : (0 : ℤ) ≤ (frames.findIdx (fun g => g.id == f.id) : ℤ) + 1)]
      rw [show ((frames.findIdx (fun g => g.id == f.id) : ℤ) + 1).toNat =
        frames.findIdx (fun g => g.id == f.id) + 1 by omega]
      congr 1
      funext u
      by_cases hz : frames.findIdx (fun g => g.id == f.id) = 0
      · rw [hz]
        norm_num
      · rw [if_pos (by omega : (0 : ℤ) ≤ (frames.findIdx (fun g => g.id == f.id) : ℤ) - 1),
          if_neg hz]
        congr 1
        omega
  · intro h1
    have hemp : (frames.filter (fun g => g.id != f.id)).length = 0 := by omega
    unfold deleteFrame
    rw [if_pos hemp]
    exact ⟨rfl, rfl, rfl⟩

/-- Witness for C9 on a three-frame run: deleting the middle frame shrinks
the run from 3 to 2 frames, releases exactly its handle, and promotes the
next frame as successor. -/
theorem C9_remove_witness :
    (deleteFrame [frameA, frameB, frameC] frameB.id).frames.length + 1 =
      ([frameA, frameB, frameC] : List PortfolioFrame).length ∧
    (deleteFrame [frameA, frameB, frameC] frameB.id).released = [frameB.url] ∧
    (deleteFrame [frameA, frameB, frameC] frameB.id).successor = some frameC := by
  have h := C9_remove [frameA, frameB, frameC] frameB.id frameB (by decide)
    (List.mem_cons_of_mem frameA (List.mem_cons_self frameB [frameC])) rfl
  refine ⟨h.1, h.2.1, ?_⟩
  rw [h.2.2.1]
  decide

/-- C10: deleting with an id that matches no frame of a non-empty run
leaves the sequence entirely unchanged — same frames, same order, same
selection flags — releases no display handle, and does not take the
run-exhausted path. -/
theorem C10_delete_unknown (frames : List PortfolioFrame) (id : String)
    (hne : frames ≠ []) (hid : ∀ f ∈ frames, f.id ≠ id) :
    (deleteFrame frames id).frames = frames ∧
    (deleteFrame frames id).released = [] ∧
    (deleteFrame frames id).exhausted = false := by
  have hfil : frames.filter (fun f => f.id != id) = frames :=
    List.filter_eq_self.mpr (fun a ha => by simpa using hid a ha)
  have hfind : frames.find? (fun f => f.id == id) = none :=
    List.find?_eq_none.mpr (fun a ha => by simpa using hid a ha)
  have hlen : ¬(frames.filter (fun f => f.id != id)).length = 0 := by
    rw [hfil]
    have := List.length_pos.mpr hne
    omega
  unfold deleteFrame
  rw [if_neg hlen]
  refine ⟨hfil, ?_, rfl⟩
  show deleteReleased frames id = []
  unfold deleteReleased
  rw [hfind]

/-- Witness for C10: deleting an unknown id from a one-frame run changes
nothing and releases nothing. -/
theorem C10_delete_unknown_witness :
    (deleteFrame [frameA] "no-such-id").frames = [frameA] ∧
    (deleteFrame [frameA] "no-such-id").released = [] ∧
    (deleteFrame [frameA] "no-such-id").exhausted = false :=
  C10_delete_unknown [frameA] "no-such-id" (List.cons_ne_nil frameA []) (by decide)

/-- C8 (code slip): export names are built with two-digit zero padding
(`portfolio_shot_NN.jpg`, 1-based, current display order — shown here on a
concrete selection), and two-digit padding keeps lexicographic order equal
to numeric order only up to 99 entries; but the §3 hard frame ceiling is
600, so selections of 100 or more frames are admissible, and there the
orders disagree: position 100 gets `portfolio_shot_100.jpg`, which sorts
before the name `portfolio_shot_11.jpg` of position 11. -/
theorem C8_export_naming :
    handleDownload [frameA] = some [(entryName 0, frameA)] ∧
    entryName 0 = "portfolio_shot_01.jpg" ∧
    entryName 10 = "portfolio_shot_11.jpg" ∧
    entryName 99 = "portfolio_shot_100.jpg" ∧
    (10 : ℕ) < 99 ∧
    entryName 99 < entryName 10 ∧
    100 ≤ maxFrameCount := by
  refine ⟨?_, by decide, by decide, by decide, by norm_num, ?_, by decide⟩
  · rfl
  · rw [String.lt_iff_toList_lt]
    decide

end FolioMagic
